import Mathlib

/-!
Verification of the hybrid-encryption envelope primitive of
`cpp/src/util/crypto/envelope.cpp` (namespace `xtreemfs`, class `Envelope`).

The file splits in two layers:

* A model of the external cipher provider (OpenSSL's EVP layer) and the
  asymmetric-key handle.  These are collaborators of the repository, not
  repository code; their behaviour is modelled from the specification's
  "Cipher Provider" contract (spec section 4.1) and marked as such.
* A shallow embedding of the three `Envelope` member functions
  (`Seal`, the name-resolving sized-buffer `Open`, the allocating `Open`,
  and the private core `Open` overload), translated line by line from
  `envelope.cpp`.  Out-parameters (`std::vector` buffers) are threaded as
  explicit state: each operation receives the buffers' prior contents and
  returns their contents at the moment the call ends, whether by normal
  return or by a thrown error.  The ambient randomness source is threaded
  as an explicit `Rng` state.

`std::vector<unsigned char>` is modelled as `List Nat` whose entries the
C++ type keeps below 256; byte arithmetic is explicit `% 256`.
-/

deriving instance DecidableEq for Except

namespace xtreemfs

/-- A byte buffer (`std::vector<unsigned char>` / `boost::asio` buffer). -/
abbrev Bytes := List Nat

/-- All entries of a byte buffer are actual byte values. -/
def ValidBytes (b : Bytes) : Prop := ∀ x ∈ b, x < 256

instance (b : Bytes) : Decidable (ValidBytes b) := by
  unfold ValidBytes; infer_instance

/-- `std::vector::resize` on a byte vector: keeps the first `n` old entries,
value-initialises (zero-fills) any new entries. -/
def vecResize (v : Bytes) (n : Nat) : Bytes :=
  (v ++ List.replicate (n - v.length) 0).take n

/-- `std::vector::resize` on a vector of byte vectors: new entries are
default-constructed empty vectors. -/
def vecResizeL (v : List Bytes) (n : Nat) : List Bytes :=
  (v ++ List.replicate (n - v.length) []).take n

/-- Writing `data` into buffer `buf` starting at offset `off`
(a raw `memcpy` into the buffer's storage; bytes outside the written
range keep their previous value). -/
def writeAt (buf : Bytes) (off : Nat) (data : Bytes) : Bytes :=
  buf.take off ++ data ++ buf.drop (off + data.length)

/-- The ambient randomness source backing the provider's key/IV generation:
an infinite stream of values and the position of the next unread one. -/
structure Rng where
  stream : Nat → Nat
  pos : Nat

/-- Modelled from the spec: "generating cryptographically secure random
bytes" (section 4.1).  Reads `n` bytes off the stream and advances it. -/
def genBytes (n : Nat) (r : Rng) : Bytes × Rng :=
  ((List.range n).map (fun i => r.stream (r.pos + i) % 256), ⟨r.stream, r.pos + n⟩)

/-- Modelled from the spec: the metadata a cipher name resolves to,
"block size (bytes), required IV length (bytes), and key size (bytes)"
(spec section 3, Cipher Identifier). -/
structure EVPCipher where
  cname : String
  block_size : Nat
  iv_length : Nat
  key_size : Nat
deriving DecidableEq

/-- `EVP_CIPHER_block_size`. -/
def EVP_CIPHER_block_size (c : EVPCipher) : Nat := c.block_size

/-- `EVP_CIPHER_iv_length`. -/
def EVP_CIPHER_iv_length (c : EVPCipher) : Nat := c.iv_length

/-- Modelled from the spec: the table of cipher names the provider knows
(block ciphers in CBC mode with PKCS padding, e.g. "an AES mode",
spec section 3). -/
def cipherTable : List EVPCipher :=
  [⟨"aes-128-cbc", 16, 16, 16⟩,
   ⟨"aes-192-cbc", 16, 16, 24⟩,
   ⟨"aes-256-cbc", 16, 16, 32⟩,
   ⟨"des-ede3-cbc", 8, 8, 24⟩]

/-- `EVP_get_cipherbyname`: resolves a cipher name, `none` if unknown. -/
def EVP_get_cipherbyname (name : String) : Option EVPCipher :=
  cipherTable.find? (fun c => c.cname == name)

/-- Modelled from the spec: the opaque asymmetric-key handle
(spec section 3, Asymmetric Key).  `pubKey id sz` / `privKey id sz` are the
two halves of key pair `id`, with provider buffer size `sz`
(`EVP_PKEY_size`); `badKey` is a malformed handle on which every
key-wrap operation fails. -/
inductive AsymKey where
  | pubKey (id : Nat) (sz : Nat)
  | privKey (id : Nat) (sz : Nat)
  | badKey (sz : Nat)
deriving DecidableEq

/-- `EVP_PKEY_size`: the provider's upper bound for the wrapped-key size. -/
def EVP_PKEY_size : AsymKey → Nat
  | .pubKey _ sz => sz
  | .privKey _ sz => sz
  | .badKey sz => sz

/-- The key-pair identity carried by a handle, if any. -/
def AsymKey.keyId : AsymKey → Option Nat
  | .pubKey id _ => some id
  | .privKey id _ => some id
  | .badKey _ => none

/-- A private key matches a public key when they are the two halves of the
same key pair (spec section 6: "the private key matching `pub_keys[i]`"). -/
def privMatches : AsymKey → AsymKey → Bool
  | .privKey i _, .pubKey j _ => i == j
  | _, _ => false

/-- Modelled from the spec: key encapsulation, "encrypting a symmetric key
under an asymmetric public key so only the matching private key can
recover it" (glossary).  Succeeds only on a public key whose provider
size can hold the wrapped blob; the blob records the key-pair identity
followed by the symmetric key. -/
def wrapKey (k : AsymKey) (symKey : Bytes) : Option Bytes :=
  match k with
  | .pubKey id sz => if symKey.length + 1 ≤ sz then some (id :: symKey) else none
  | _ => none

/-- Modelled from the spec: key decapsulation; "if the private key does not
correspond to the public key used at Seal time, this step fails"
(spec section 4.3). -/
def unwrapKey (k : AsymKey) (blob : Bytes) : Option Bytes :=
  match k with
  | .privKey id _ =>
    match blob with
    | [] => none
    | b :: rest => if b = id then some rest else none
  | _ => none

/-- Wrapping the symmetric key once per recipient, in input order
(the per-recipient loop inside `EVP_SealInit`). -/
def wrapAll (keys : List AsymKey) (symKey : Bytes) : Option (List Bytes) :=
  match keys with
  | [] => some []
  | k :: ks =>
    match wrapKey k symKey, wrapAll ks symKey with
    | some b, some bs => some (b :: bs)
    | _, _ => none

/-- PKCS#7 pad length: always in `[1, block]`. -/
def padLen (block n : Nat) : Nat := block - n % block

/-- PKCS#7 padding: append `padLen` copies of the byte `padLen`. -/
def pkcs7pad (block : Nat) (pt : Bytes) : Bytes :=
  pt ++ List.replicate (padLen block pt.length) (padLen block pt.length)

/-- PKCS#7 unpadding with the standard validity checks; `none` models the
provider's "bad decrypt" failure at finalisation. -/
def pkcs7unpad (block : Nat) (data : Bytes) : Option Bytes :=
  if data.length = 0 ∨ data.length % block ≠ 0 then none
  else if data.getLast?.getD 0 = 0 ∨ block < data.getLast?.getD 0 ∨
      data.length < data.getLast?.getD 0 then none
  else if data.drop (data.length - data.getLast?.getD 0) =
      List.replicate (data.getLast?.getD 0) (data.getLast?.getD 0) then
    some (data.take (data.length - data.getLast?.getD 0))
  else none

/-- The per-byte mixing value the model cipher derives from key and IV. -/
def mask (key iv : Bytes) : Nat := (key.sum + iv.sum) % 256

/-- Model cipher, encryption direction of one byte. -/
def encByte (m b : Nat) : Nat := (b + m) % 256

/-- Model cipher, decryption direction of one byte. -/
def decByte (m b : Nat) : Nat := (b + (256 - m)) % 256

/-- Modelled from the spec: symmetric encryption under the resolved
cipher — pad to a whole number of blocks, then transform each byte
under the key/IV (spec section 4.1(b)). -/
def symEncrypt (c : EVPCipher) (key iv pt : Bytes) : Bytes :=
  (pkcs7pad c.block_size pt).map (encByte (mask key iv))

/-- Modelled from the spec: the raw (pre-unpadding) symmetric decryption
of a ciphertext (spec section 4.1(c)). -/
def symDecryptRaw (key iv ct : Bytes) : Bytes :=
  ct.map (decByte (mask key iv))

/-- The failures the envelope code can raise.  The source raises every
typed failure through `LogAndThrowOpenSSLError`; `openSSLError msg`
carries the message text passed there (`""` for the argument-less call,
which is the spec's `CryptoOperationFailed`; a non-empty message is only
passed at the unknown-cipher sites, the spec's `UnknownCipher`).
`assertFailed` models a C `assert` firing (debug builds abort).
`invalidIVLength` appears in the specification's error taxonomy
(spec section 7) but is never raised by the source. -/
inductive EnvError where
  | openSSLError (msg : String)
  | assertFailed
  | invalidIVLength
deriving DecidableEq

/-- An error raised at one of the unknown-cipher sites: only those pass a
message to `LogAndThrowOpenSSLError`. -/
def EnvError.isUnknownCipherError : EnvError → Prop
  | .openSSLError m => m ≠ ""
  | _ => False

/-- The spec's `CryptoOperationFailed`: the argument-less
`LogAndThrowOpenSSLError()` call sites. -/
def EnvError.isCryptoOperationFailed : EnvError → Prop
  | .openSSLError m => m = ""
  | _ => False

/-- The three caller-supplied output vectors of `Envelope::Seal`. -/
structure SealOut where
  encrypted_keys : List Bytes
  iv : Bytes
  ciphertext : Bytes
deriving DecidableEq

/-- Modelled from the spec: `EVP_SealInit` — "initialize with metadata +
list of public keys → produces {symmetric key encrypted under each public
key, generated IV}" (spec section 4.1(b)).  Generates the fresh symmetric
key and IV from the randomness stream, then wraps the key once per
recipient; fails if any wrap fails. -/
def EVP_SealInit (c : EVPCipher) (pub_keys : List AsymKey) (r : Rng) :
    Option (Bytes × Bytes × List Bytes) × Rng :=
  let kr := genBytes c.key_size r
  let ivr := genBytes (EVP_CIPHER_iv_length c) kr.2
  match wrapAll pub_keys kr.1 with
  | none => (none, ivr.2)
  | some ws => (some (kr.1, ivr.1, ws), ivr.2)

/-- Modelled from the spec: `EVP_OpenInit` — "initialize with one encrypted
key + matching private key + IV → recovers the symmetric key internally"
(spec section 4.1(c)); fails when the private key does not match or the
recovered key has the wrong size for the cipher. -/
def EVP_OpenInit (c : EVPCipher) (encrypted_key : Bytes) (priv_key : AsymKey) :
    Option Bytes :=
  match unwrapKey priv_key encrypted_key with
  | none => none
  | some key => if key.length = c.key_size then some key else none

/-- The symmetric key a `Seal` call starting from randomness state `r`
generates (never returned to the caller in the clear). -/
def sealSymKey (c : EVPCipher) (r : Rng) : Bytes := (genBytes c.key_size r).1

/-- The IV a `Seal` call starting from randomness state `r` generates. -/
def sealIV (c : EVPCipher) (r : Rng) : Bytes :=
  (genBytes (EVP_CIPHER_iv_length c) (genBytes c.key_size r).2).1

/-- The randomness state after a `Seal` call has drawn its key and IV. -/
def sealRng (c : EVPCipher) (r : Rng) : Rng :=
  (genBytes (EVP_CIPHER_iv_length c) (genBytes c.key_size r).2).2

/-- `Envelope::Seal` (envelope.cpp lines 31-100), with the caller-supplied
output vectors threaded as explicit state `out0` and the ambient
randomness as `r`.  Returns the call's outcome (normal return, or the
error thrown), the output vectors' contents when the call ends, and the
randomness state when the call ends. -/
def Envelope.Seal (cipher_name : String) (pub_keys : List AsymKey)
    (plaintext : Bytes) (out0 : SealOut) (r : Rng) :
    ((Except EnvError Unit) × SealOut) × Rng :=
  -- line 38: assert(pub_keys.size() > 0)
  if pub_keys.length = 0 then ((Except.error EnvError.assertFailed, out0), r)
  else
    -- lines 45-48: resolve the cipher name
    match EVP_get_cipherbyname cipher_name with
    | none =>
      ((Except.error (EnvError.openSSLError
          ("Envelope::Seal: Unknown cipher " ++ cipher_name)), out0), r)
    | some cipher =>
      -- lines 52-64: pre-size every output buffer
      let ek1 := ((vecResizeL out0.encrypted_keys pub_keys.length).zip pub_keys).map
          (fun p => vecResize p.1 (EVP_PKEY_size p.2))
      let iv1 := vecResize out0.iv (EVP_CIPHER_iv_length cipher)
      let ct1 := vecResize out0.ciphertext
          (plaintext.length + EVP_CIPHER_block_size cipher)
      let out1 : SealOut := ⟨ek1, iv1, ct1⟩
      -- lines 75-80: EVP_SealInit generates key and IV and wraps the key
      match EVP_SealInit cipher pub_keys r with
      | (none, r2) => ((Except.error (EnvError.openSSLError ""), out1), r2)
      | (some (symKey, ivGen, wrapped), r2) =>
        -- SealInit wrote the IV and each wrapped key into the buffers
        let ek2 := (ek1.zip wrapped).map (fun p => writeAt p.1 0 p.2)
        let iv2 := writeAt iv1 0 ivGen
        -- lines 82-94: SealUpdate writes the whole blocks of the plaintext,
        -- SealFinal the final padded block
        let full := symEncrypt cipher symKey ivGen plaintext
        let updOut := full.take
            ((plaintext.length / EVP_CIPHER_block_size cipher)
              * EVP_CIPHER_block_size cipher)
        let ct2 := writeAt ct1 0 updOut
        let ct3 := writeAt ct2 updOut.length (full.drop updOut.length)
        let ciphertext_len := full.length
        -- lines 96-99: shrink each encrypted key and the ciphertext to the
        -- lengths actually written
        let ek3 := (ek2.zip wrapped).map (fun p => vecResize p.1 p.2.length)
        ((Except.ok (), ⟨ek3, iv2, vecResize ct3 ciphertext_len⟩), r2)

/-- The private core `Envelope::Open` overload (envelope.cpp lines
157-207): cipher already resolved, writes into the caller-sized
`plaintext` buffer and returns the plaintext length.  The buffer is
threaded as explicit state; the returned buffer records every write the
call performed before it ended. -/
def Envelope.OpenCore (cipher : EVPCipher) (priv_key : AsymKey)
    (ciphertext encrypted_key iv plaintext : Bytes) :
    (Except EnvError Nat) × Bytes :=
  -- line 163: assert(buffer_size(iv) == EVP_CIPHER_iv_length(cipher))
  if iv.length ≠ EVP_CIPHER_iv_length cipher then
    (Except.error EnvError.assertFailed, plaintext)
  else
    -- lines 178-186: EVP_OpenInit recovers the symmetric key
    match EVP_OpenInit cipher encrypted_key priv_key with
    | none => (Except.error (EnvError.openSSLError ""), plaintext)
    | some key =>
      -- lines 188-195: EVP_OpenUpdate decrypts and writes the whole blocks,
      -- holding back the final block for the padding check
      let raw := symDecryptRaw key iv ciphertext
      let updOut := raw.take
          (ciphertext.length - min ciphertext.length (EVP_CIPHER_block_size cipher))
      let buf1 := writeAt plaintext 0 updOut
      -- lines 197-202: EVP_OpenFinal checks the padding and writes the rest
      match pkcs7unpad (EVP_CIPHER_block_size cipher) raw with
      | none => (Except.error (EnvError.openSSLError ""), buf1)
      | some pt =>
        let buf2 := writeAt buf1 updOut.length (pt.drop updOut.length)
        let plaintext_len := pt.length
        -- line 204: assert(plaintext_len <= buffer_size(plaintext))
        if plaintext_len ≤ plaintext.length then (Except.ok plaintext_len, buf2)
        else (Except.error EnvError.assertFailed, buf2)

/-- The public sized-buffer `Envelope::Open` (envelope.cpp lines 115-126):
resolves the cipher name, then delegates to the core overload.  The
ambient randomness state is threaded to record that the call never
touches it. -/
def Envelope.OpenSized (cipher_name : String) (priv_key : AsymKey)
    (ciphertext encrypted_key iv plaintext : Bytes) (r : Rng) :
    ((Except EnvError Nat) × Bytes) × Rng :=
  ((match EVP_get_cipherbyname cipher_name with
    | none =>
      (Except.error (EnvError.openSSLError
          ("Envelope::Open: Unknown cipher " ++ cipher_name)), plaintext)
    | some cipher =>
      Envelope.OpenCore cipher priv_key ciphertext encrypted_key iv plaintext), r)

/-- The public allocating `Envelope::Open` (envelope.cpp lines 140-155):
resolves the cipher name, resizes the caller's vector to
`ciphertext length + block size`, delegates to the core overload over
that buffer, and shrinks the vector to the returned plaintext length.
`plaintext0` is the caller vector's prior contents. -/
def Envelope.OpenAlloc (cipher_name : String) (priv_key : AsymKey)
    (ciphertext encrypted_key iv plaintext0 : Bytes) (r : Rng) :
    ((Except EnvError Unit) × Bytes) × Rng :=
  ((match EVP_get_cipherbyname cipher_name with
    | none =>
      (Except.error (EnvError.openSSLError
          ("Envelope: Unknown cipher " ++ cipher_name)), plaintext0)
    | some cipher =>
      let buf := vecResize plaintext0
          (ciphertext.length + EVP_CIPHER_block_size cipher)
      match Envelope.OpenCore cipher priv_key ciphertext encrypted_key iv buf with
      | (Except.error e, buf2) => (Except.error e, buf2)
      | (Except.ok n, buf2) => (Except.ok (), vecResize buf2 n)), r)

/-- A fixed concrete randomness state, used to instantiate theorems. -/
def rng0 : Rng := ⟨fun _ => 0, 0⟩

/-- A public key the provider can wrap a `ksz`-byte symmetric key under. -/
def goodPubKey (ksz : Nat) : AsymKey → Bool
  | .pubKey _ sz => decide (ksz + 1 ≤ sz)
  | _ => false

/-! ### Buffer lemmas -/

theorem length_vecResize (v : Bytes) (n : Nat) : (vecResize v n).length = n := by
  simp [vecResize]; omega

theorem length_vecResizeL (v : List Bytes) (n : Nat) : (vecResizeL v n).length = n := by
  simp [vecResizeL]; omega

theorem vecResize_append_left (w t : Bytes) : vecResize (w ++ t) w.length = w := by
  unfold vecResize
  have h : w.length - (w ++ t).length = 0 := by simp
  rw [h, List.replicate_zero, List.append_nil, List.take_left]

theorem vecResize_eq_take (v : Bytes) (n : Nat) (h : n ≤ v.length) :
    vecResize v n = v.take n := by
  unfold vecResize
  have h0 : n - v.length = 0 := by omega
  rw [h0, List.replicate_zero, List.append_nil]

theorem writeAt_zero (b d : Bytes) : writeAt b 0 d = d ++ b.drop d.length := by
  simp [writeAt]

theorem writeAt_exact (b d : Bytes) (h : b.length ≤ d.length) : writeAt b 0 d = d := by
  rw [writeAt_zero, List.drop_eq_nil_of_le h, List.append_nil]

theorem vecResize_writeAt_zero (b w : Bytes) :
    vecResize (writeAt b 0 w) w.length = w := by
  rw [writeAt_zero]; exact vecResize_append_left w _

/-- Writing a prefix of `full` at offset 0 and then the rest of `full` at the
matching offset amounts to writing `full` whole. -/
theorem writeAt_split (b full : Bytes) (u : Nat) (hu : u ≤ full.length) :
    writeAt (writeAt b 0 (full.take u)) (full.take u).length
        (full.drop (full.take u).length) = full ++ b.drop full.length := by
  have hlen : (full.take u).length = u := by simp; omega
  rw [writeAt_zero, hlen]
  unfold writeAt
  have h1 : (full.take u ++ b.drop u).take u = full.take u := by
    have := List.take_left (full.take u) (b.drop u)
    rwa [hlen] at this
  have h2 : (full.take u ++ b.drop u).drop (u + (full.drop u).length) =
      b.drop full.length := by
    have hd : u + (full.drop u).length = u + (full.length - u) := by simp
    rw [hd]
    have hdd : ((full.take u) ++ (b.drop u)).drop
        ((full.take u).length + (full.length - u)) =
        (b.drop u).drop (full.length - u) := List.drop_append (full.length - u)
    rw [hlen] at hdd
    rw [hdd, List.drop_drop]
    congr 1
    omega
  rw [h1, h2]
  congr 1
  exact List.take_append_drop u full

theorem zip_write_shrink (bufs ws : List Bytes) (h : bufs.length = ws.length) :
    (((bufs.zip ws).map (fun p => writeAt p.1 0 p.2)).zip ws).map
        (fun p => vecResize p.1 p.2.length) = ws := by
  induction bufs generalizing ws with
  | nil =>
    cases ws with
    | nil => rfl
    | cons w wt => simp at h
  | cons b bt ih =>
    cases ws with
    | nil => simp at h
    | cons w wt =>
      simp only [List.zip_cons_cons, List.map_cons]
      rw [vecResize_writeAt_zero]
      have ht : bt.length = wt.length := by simpa using h
      rw [ih wt ht]

/-! ### Randomness lemmas -/

theorem genBytes_length (n : Nat) (r : Rng) : (genBytes n r).1.length = n := by
  simp [genBytes]

theorem genBytes_valid (n : Nat) (r : Rng) : ValidBytes (genBytes n r).1 := by
  intro x hx
  simp only [genBytes, List.mem_map, List.mem_range] at hx
  obtain ⟨i, _, rfl⟩ := hx
  exact Nat.mod_lt _ (by norm_num)

theorem sealSymKey_length (c : EVPCipher) (r : Rng) :
    (sealSymKey c r).length = c.key_size := genBytes_length _ _

theorem sealIV_length (c : EVPCipher) (r : Rng) :
    (sealIV c r).length = c.iv_length := genBytes_length _ _

/-! ### Cipher-table lemmas -/

theorem resolve_mem (name : String) (c : EVPCipher)
    (h : EVP_get_cipherbyname name = some c) : c ∈ cipherTable :=
  List.mem_of_find?_eq_some h

theorem cipherTable_bounds : ∀ c ∈ cipherTable,
    0 < c.block_size ∧ c.block_size < 256 := by decide

theorem resolve_block_bounds (name : String) (c : EVPCipher)
    (h : EVP_get_cipherbyname name = some c) :
    0 < c.block_size ∧ c.block_size < 256 :=
  cipherTable_bounds c (resolve_mem name c h)

/-! ### Padding lemmas -/

theorem getLast?_replicate_pos (n a : Nat) (h : 0 < n) :
    (List.replicate n a).getLast? = some a := by
  induction n with
  | zero => omega
  | succ k ih =>
    cases k with
    | zero => rfl
    | succ j =>
      rw [List.replicate_succ, List.replicate_succ, List.getLast?_cons_cons,
          ← List.replicate_succ]
      exact ih (by omega)

theorem pkcs7unpad_pkcs7pad (block : Nat) (pt : Bytes) (hb : 0 < block) :
    pkcs7unpad block (pkcs7pad block pt) = some pt := by
  have hq1 : 0 < padLen block pt.length := by
    unfold padLen
    have := Nat.mod_lt pt.length hb
    omega
  have hq2 : padLen block pt.length ≤ block := Nat.sub_le _ _
  have hlen : (pkcs7pad block pt).length = pt.length + padLen block pt.length := by
    simp [pkcs7pad]
  have hmod : (pt.length + padLen block pt.length) % block = 0 := by
    have hd := Nat.div_add_mod pt.length block
    have hmlt := Nat.mod_lt pt.length hb
    have he : pt.length + padLen block pt.length = block * (pt.length / block) + block := by
      unfold padLen; omega
    have he2 : block * (pt.length / block) + block = block * (pt.length / block + 1) := by
      ring
    rw [he, he2, Nat.mul_mod_right]
  have hlast : (pkcs7pad block pt).getLast? = some (padLen block pt.length) := by
    unfold pkcs7pad
    rw [List.getLast?_append_of_ne_nil]
    · exact getLast?_replicate_pos _ _ hq1
    · intro hnil
      have := congrArg List.length hnil
      simp at this
      omega
  have hdrop : (pkcs7pad block pt).length - padLen block pt.length = pt.length := by
    omega
  have hA : ¬((pkcs7pad block pt).length = 0 ∨ (pkcs7pad block pt).length % block ≠ 0) := by
    rw [hlen]
    push_neg
    exact ⟨by omega, hmod⟩
  have hB : ¬((pkcs7pad block pt).getLast?.getD 0 = 0 ∨
      block < (pkcs7pad block pt).getLast?.getD 0 ∨
      (pkcs7pad block pt).length < (pkcs7pad block pt).getLast?.getD 0) := by
    rw [hlast, hlen]
    simp only [Option.getD_some]
    push_neg
    exact ⟨by omega, by omega, by omega⟩
  have hC : (pkcs7pad block pt).drop
        ((pkcs7pad block pt).length - (pkcs7pad block pt).getLast?.getD 0) =
      List.replicate ((pkcs7pad block pt).getLast?.getD 0)
        ((pkcs7pad block pt).getLast?.getD 0) := by
    rw [hlast]
    simp only [Option.getD_some]
    rw [hdrop]
    show (pt ++ List.replicate (padLen block pt.length) (padLen block pt.length)).drop
        pt.length = _
    rw [List.drop_left]
  unfold pkcs7unpad
  rw [if_neg hA, if_neg hB, if_pos hC, hlast]
  simp only [Option.getD_some]
  rw [hdrop]
  show some ((pt ++ List.replicate (padLen block pt.length)
      (padLen block pt.length)).take pt.length) = some pt
  rw [List.take_left]

theorem pkcs7unpad_facts (block : Nat) (data pt : Bytes)
    (h : pkcs7unpad block data = some pt) :
    pt = data.take pt.length ∧ pt.length + 1 ≤ data.length ∧
      data.length ≤ pt.length + block ∧ 0 < data.length ∧
      data.length % block = 0 ∧ 0 < block := by
  unfold pkcs7unpad at h
  split at h
  · exact absurd h (by simp)
  · split at h
    · exact absurd h (by simp)
    · split at h
      · rename_i hc1 hc2 hc3
        push_neg at hc1 hc2
        obtain ⟨hne, hmod⟩ := hc1
        obtain ⟨hp0, hpb, hpl⟩ := hc2
        injection h with h
        subst h
        have hplen : (data.take (data.length - data.getLast?.getD 0)).length =
            data.length - data.getLast?.getD 0 := by
          rw [List.length_take]
          omega
        refine ⟨?_, ?_, ?_, ?_, hmod, ?_⟩
        · rw [hplen]
        · rw [hplen]; omega
        · rw [hplen]; omega
        · omega
        · omega
      · exact absurd h (by simp)

/-! ### Model-cipher lemmas -/

theorem mask_lt (key iv : Bytes) : mask key iv < 256 :=
  Nat.mod_lt _ (by norm_num)

theorem decByte_encByte (m b : Nat) (hm : m < 256) (hb : b < 256) :
    decByte m (encByte m b) = b := by
  unfold decByte encByte
  rw [Nat.mod_add_mod]
  omega

theorem symDecryptRaw_symEncrypt (c : EVPCipher) (key iv pt : Bytes)
    (hpt : ValidBytes pt) (hb2 : c.block_size < 256) :
    symDecryptRaw key iv (symEncrypt c key iv pt) = pkcs7pad c.block_size pt := by
  unfold symDecryptRaw symEncrypt
  rw [List.map_map]
  conv_rhs => rw [← List.map_id (pkcs7pad c.block_size pt)]
  apply List.map_eq_map_iff.mpr
  intro x hx
  simp only [Function.comp_apply, id_eq]
  have hx256 : x < 256 := by
    unfold pkcs7pad at hx
    rcases List.mem_append.mp hx with hmem | hmem
    · exact hpt x hmem
    · have := List.eq_of_mem_replicate hmem
      subst this
      have : padLen c.block_size pt.length ≤ c.block_size := Nat.sub_le _ _
      omega
  exact decByte_encByte _ _ (mask_lt key iv) hx256

theorem length_symEncrypt (c : EVPCipher) (key iv pt : Bytes) :
    (symEncrypt c key iv pt).length = pt.length + padLen c.block_size pt.length := by
  simp [symEncrypt, pkcs7pad]

/-! ### Key-wrapping lemmas -/

theorem wrapAll_length (keys : List AsymKey) (s : Bytes) (ws : List Bytes)
    (h : wrapAll keys s = some ws) : ws.length = keys.length := by
  induction keys generalizing ws with
  | nil =>
    unfold wrapAll at h
    injection h with h
    subst h; rfl
  | cons k kt ih =>
    unfold wrapAll at h
    cases hw : wrapKey k s with
    | none => rw [hw] at h; exact absurd h (by simp)
    | some b =>
      rw [hw] at h
      cases hr : wrapAll kt s with
      | none => rw [hr] at h; exact absurd h (by simp)
      | some bs =>
        rw [hr] at h
        injection h with h
        subst h
        simp [ih bs hr]

theorem wrapAll_getD (keys : List AsymKey) (s : Bytes) (ws : List Bytes)
    (h : wrapAll keys s = some ws) (i : Nat) (hi : i < keys.length) (d : AsymKey) :
    wrapKey (keys.getD i d) s = some (ws.getD i []) := by
  induction keys generalizing ws i with
  | nil => simp at hi
  | cons k kt ih =>
    unfold wrapAll at h
    cases hw : wrapKey k s with
    | none => rw [hw] at h; exact absurd h (by simp)
    | some b =>
      rw [hw] at h
      cases hr : wrapAll kt s with
      | none => rw [hr] at h; exact absurd h (by simp)
      | some bs =>
        rw [hr] at h
        injection h with h
        subst h
        cases i with
        | zero => simpa [List.getD] using hw
        | succ j =>
          have hj : j < kt.length := by simpa using hi
          simpa [List.getD] using ih bs hr j hj

theorem wrapKey_of_good (ksz : Nat) (k : AsymKey) (s : Bytes)
    (hk : goodPubKey ksz k = true) (hs : s.length = ksz) :
    wrapKey k s = some ((k.keyId.getD 0) :: s) := by
  cases k with
  | pubKey id sz =>
    have hle : ksz + 1 ≤ sz := of_decide_eq_true hk
    show (if s.length + 1 ≤ sz then some (id :: s) else none) =
      some ((AsymKey.keyId (AsymKey.pubKey id sz)).getD 0 :: s)
    rw [if_pos (by omega)]
    rfl
  | privKey id sz => simp [goodPubKey] at hk
  | badKey sz => simp [goodPubKey] at hk

theorem wrapAll_of_good (keys : List AsymKey) (s : Bytes) (ksz : Nat)
    (hk : ∀ k ∈ keys, goodPubKey ksz k = true) (hs : s.length = ksz) :
    wrapAll keys s = some (keys.map (fun k => (k.keyId.getD 0) :: s)) := by
  induction keys with
  | nil => rfl
  | cons k kt ih =>
    unfold wrapAll
    rw [wrapKey_of_good ksz k s (hk k (by simp)) hs,
        ih (fun x hx => hk x (by simp [hx]))]
    rfl

/-! ### Evaluation lemmas for Seal -/

theorem EVP_SealInit_eq (c : EVPCipher) (pub_keys : List AsymKey) (r : Rng)
    (wrapped : List Bytes) (hw : wrapAll pub_keys (sealSymKey c r) = some wrapped) :
    EVP_SealInit c pub_keys r =
      (some (sealSymKey c r, sealIV c r, wrapped), sealRng c r) := by
  have hw2 : wrapAll pub_keys (genBytes c.key_size r).1 = some wrapped := hw
  unfold EVP_SealInit
  simp only [hw2]
  rfl

theorem EVP_SealInit_fail (c : EVPCipher) (pub_keys : List AsymKey) (r : Rng)
    (hw : wrapAll pub_keys (sealSymKey c r) = none) :
    EVP_SealInit c pub_keys r = (none, sealRng c r) := by
  have hw2 : wrapAll pub_keys (genBytes c.key_size r).1 = none := hw
  unfold EVP_SealInit
  simp only [hw2]
  rfl

theorem seal_eq (cipher_name : String) (c : EVPCipher) (pub_keys : List AsymKey)
    (plaintext : Bytes) (out0 : SealOut) (r : Rng) (wrapped : List Bytes)
    (hc : EVP_get_cipherbyname cipher_name = some c)
    (hne : pub_keys ≠ [])
    (hw : wrapAll pub_keys (sealSymKey c r) = some wrapped) :
    Envelope.Seal cipher_name pub_keys plaintext out0 r =
      ((Except.ok (), ⟨wrapped, sealIV c r,
          symEncrypt c (sealSymKey c r) (sealIV c r) plaintext⟩), sealRng c r) := by
  have hlen0 : ¬ pub_keys.length = 0 := by
    intro h
    exact hne (List.eq_nil_of_length_eq_zero h)
  have hinit := EVP_SealInit_eq c pub_keys r wrapped hw
  have hwlen : wrapped.length = pub_keys.length := wrapAll_length _ _ _ hw
  unfold Envelope.Seal
  rw [if_neg hlen0]
  simp only [hc, hinit]
  have hek : ((((((vecResizeL out0.encrypted_keys pub_keys.length).zip pub_keys).map
        (fun p => vecResize p.1 (EVP_PKEY_size p.2))).zip wrapped).map
        (fun p => writeAt p.1 0 p.2)).zip wrapped).map
        (fun p => vecResize p.1 p.2.length) = wrapped := by
    apply zip_write_shrink
    rw [List.length_map, List.length_zip, length_vecResizeL, hwlen]
    omega
  have hivw : writeAt (vecResize out0.iv (EVP_CIPHER_iv_length c)) 0 (sealIV c r)
      = sealIV c r := by
    apply writeAt_exact
    rw [length_vecResize, sealIV_length]
    exact Nat.le_refl _
  have hu : (plaintext.length / EVP_CIPHER_block_size c) * EVP_CIPHER_block_size c ≤
      (symEncrypt c (sealSymKey c r) (sealIV c r) plaintext).length := by
    rw [length_symEncrypt]
    have := Nat.div_mul_le_self plaintext.length (EVP_CIPHER_block_size c)
    omega
  rw [hek, hivw,
      writeAt_split (vecResize out0.ciphertext
          (plaintext.length + EVP_CIPHER_block_size c))
        (symEncrypt c (sealSymKey c r) (sealIV c r) plaintext) _ hu,
      vecResize_append_left]

theorem seal_fail_eq (cipher_name : String) (c : EVPCipher)
    (pub_keys : List AsymKey) (plaintext : Bytes) (out0 : SealOut) (r : Rng)
    (hc : EVP_get_cipherbyname cipher_name = some c)
    (hne : pub_keys ≠ [])
    (hw : wrapAll pub_keys (sealSymKey c r) = none) :
    Envelope.Seal cipher_name pub_keys plaintext out0 r =
      ((Except.error (EnvError.openSSLError ""),
        ⟨((vecResizeL out0.encrypted_keys pub_keys.length).zip pub_keys).map
            (fun p => vecResize p.1 (EVP_PKEY_size p.2)),
          vecResize out0.iv (EVP_CIPHER_iv_length c),
          vecResize out0.ciphertext
            (plaintext.length + EVP_CIPHER_block_size c)⟩), sealRng c r) := by
  have hlen0 : ¬ pub_keys.length = 0 := by
    intro h
    exact hne (List.eq_nil_of_length_eq_zero h)
  have hinit := EVP_SealInit_fail c pub_keys r hw
  unfold Envelope.Seal
  rw [if_neg hlen0]
  simp only [hc, hinit]

theorem EVP_SealInit_inv (c : EVPCipher) (pub_keys : List AsymKey) (r : Rng)
    (symKey ivGen : Bytes) (wrapped : List Bytes) (r2 : Rng)
    (h : EVP_SealInit c pub_keys r = (some (symKey, ivGen, wrapped), r2)) :
    wrapAll pub_keys (sealSymKey c r) = some wrapped ∧
      symKey = sealSymKey c r ∧ ivGen = sealIV c r ∧ r2 = sealRng c r := by
  unfold EVP_SealInit at h
  cases hw : wrapAll pub_keys (genBytes c.key_size r).1 with
  | none =>
    simp only [hw] at h
    exact absurd h (by simp)
  | some ws =>
    simp only [hw, Prod.mk.injEq, Option.some.injEq] at h
    obtain ⟨⟨h1, h2, h3⟩, h4⟩ := h
    refine ⟨?_, ?_, ?_, ?_⟩
    · exact h3 ▸ hw
    · exact h1.symm
    · exact h2.symm
    · exact h4.symm

theorem seal_ok_inv (cipher_name : String) (pub_keys : List AsymKey)
    (plaintext : Bytes) (out0 : SealOut) (r : Rng)
    (hok : (Envelope.Seal cipher_name pub_keys plaintext out0 r).1.1 = Except.ok ()) :
    pub_keys ≠ [] ∧ ∃ c, EVP_get_cipherbyname cipher_name = some c ∧
      ∃ wrapped, wrapAll pub_keys (sealSymKey c r) = some wrapped := by
  unfold Envelope.Seal at hok
  split at hok
  · simp at hok
  · rename_i hlen
    have hne : pub_keys ≠ [] := by
      intro h
      exact hlen (by simp [h])
    split at hok
    · simp at hok
    · rename_i c hc
      refine ⟨hne, c, hc, ?_⟩
      split at hok
      · simp at hok
      · rename_i res symKey ivGen wrapped r2 heq
        obtain ⟨hw, _, _, _⟩ := EVP_SealInit_inv c pub_keys r symKey ivGen wrapped r2 heq
        exact ⟨wrapped, hw⟩

/-! ### Evaluation lemmas for Open -/

theorem openCore_eq (c : EVPCipher) (priv_key : AsymKey)
    (ct ek iv buf key pt : Bytes)
    (hiv : iv.length = c.iv_length)
    (hinit : EVP_OpenInit c ek priv_key = some key)
    (hun : pkcs7unpad c.block_size (symDecryptRaw key iv ct) = some pt) :
    Envelope.OpenCore c priv_key ct ek iv buf =
      (if pt.length ≤ buf.length then Except.ok pt.length
       else Except.error EnvError.assertFailed,
       pt ++ buf.drop pt.length) := by
  obtain ⟨hpt_take, hlb, hub, hpos, hmod, hbpos⟩ := pkcs7unpad_facts _ _ _ hun
  have hraw_len : (symDecryptRaw key iv ct).length = ct.length := by
    simp [symDecryptRaw]
  rw [hraw_len] at hlb hub hpos hmod
  have hct_ge : c.block_size ≤ ct.length :=
    Nat.le_of_dvd hpos (Nat.dvd_of_mod_eq_zero hmod)
  have hmin : min ct.length c.block_size = c.block_size := by omega
  have hu_le_pt : ct.length - c.block_size ≤ pt.length := by omega
  have hupd : (symDecryptRaw key iv ct).take (ct.length - c.block_size) =
      pt.take (ct.length - c.block_size) := by
    conv_rhs => rw [hpt_take]
    rw [List.take_take]
    congr 1
    omega
  unfold Envelope.OpenCore
  simp only [EVP_CIPHER_iv_length, EVP_CIPHER_block_size]
  rw [if_neg (not_not_intro hiv)]
  simp only [hinit, hun]
  rw [hmin, hupd, writeAt_split buf pt (ct.length - c.block_size) hu_le_pt]
  split_ifs with h <;> rfl

theorem openCore_ok_inv (c : EVPCipher) (priv_key : AsymKey)
    (ct ek iv buf : Bytes) (n : Nat) (b2 : Bytes)
    (h : Envelope.OpenCore c priv_key ct ek iv buf = (Except.ok n, b2)) :
    iv.length = c.iv_length ∧ ∃ key pt, EVP_OpenInit c ek priv_key = some key ∧
      pkcs7unpad c.block_size (symDecryptRaw key iv ct) = some pt ∧
      n = pt.length ∧ pt.length ≤ buf.length := by
  unfold Envelope.OpenCore at h
  split at h
  · simp at h
  · rename_i hivne
    have hiv : iv.length = c.iv_length := not_not.mp hivne
    refine ⟨hiv, ?_⟩
    split at h
    · simp at h
    · rename_i key hinit
      simp only [] at h
      split at h
      · simp at h
      · rename_i pt hun
        split at h
        · rename_i hle
          simp only [Prod.mk.injEq] at h
          injection h.1 with h1
          exact ⟨key, pt, hinit, hun, h1.symm, hle⟩
        · simp at h

/-! ### Claim theorems -/

/-- Claim C1: for every plaintext P (including the empty buffer), every
cipher name that resolves to a known cipher, and every non-empty list of
public keys, if `Seal` returns (encrypted_keys, iv, ciphertext), then for
every slot `i`, opening ciphertext with `encrypted_keys[i]`, the IV, and
the private key matching `pub_keys[i]` returns exactly P (here through
the allocating `Open`, which returns the recovered plaintext whole). -/
theorem C1_seal_open_roundtrip
    (cipher_name : String) (c : EVPCipher) (pub_keys : List AsymKey)
    (plaintext : Bytes) (out0 : SealOut) (r : Rng) (i : Nat) (priv : AsymKey)
    (p0 : Bytes) (r2 : Rng)
    (hc : EVP_get_cipherbyname cipher_name = some c)
    (hne : pub_keys ≠ [])
    (hk : ∀ k ∈ pub_keys, goodPubKey c.key_size k = true)
    (hpt : ValidBytes plaintext)
    (hi : i < pub_keys.length)
    (hm : privMatches priv (pub_keys.getD i (AsymKey.badKey 0)) = true) :
    (Envelope.Seal cipher_name pub_keys plaintext out0 r).1.1 = Except.ok () ∧
    Envelope.OpenAlloc cipher_name priv
        ((Envelope.Seal cipher_name pub_keys plaintext out0 r).1.2).ciphertext
        (((Envelope.Seal cipher_name pub_keys plaintext out0 r).1.2).encrypted_keys.getD i [])
        ((Envelope.Seal cipher_name pub_keys plaintext out0 r).1.2).iv p0 r2
      = ((Except.ok (), plaintext), r2) := by
  obtain ⟨hb1, hb2⟩ := resolve_block_bounds cipher_name c hc
  have hklen : (sealSymKey c r).length = c.key_size := sealSymKey_length c r
  have hw := wrapAll_of_good pub_keys (sealSymKey c r) c.key_size hk hklen
  have hseal := seal_eq cipher_name c pub_keys plaintext out0 r _ hc hne hw
  rw [hseal]
  refine ⟨rfl, ?_⟩
  have hmem : pub_keys.getD i (AsymKey.badKey 0) ∈ pub_keys := by
    rw [List.getD_eq_getElem _ _ hi]
    exact List.getElem_mem hi
  have hgood := hk _ hmem
  obtain ⟨id, sz, hpk_eq⟩ : ∃ id sz,
      pub_keys.getD i (AsymKey.badKey 0) = AsymKey.pubKey id sz := by
    cases hpkc : pub_keys.getD i (AsymKey.badKey 0) with
    | pubKey id sz => exact ⟨id, sz, rfl⟩
    | privKey id sz => rw [hpkc] at hgood; simp [goodPubKey] at hgood
    | badKey sz => rw [hpkc] at hgood; simp [goodPubKey] at hgood
  rw [hpk_eq] at hm
  obtain ⟨sz2, hpriv_eq⟩ : ∃ sz2, priv = AsymKey.privKey id sz2 := by
    cases priv with
    | pubKey j szj => simp [privMatches] at hm
    | badKey szj => simp [privMatches] at hm
    | privKey j szj =>
      have hm2 : (j == id) = true := hm
      have hj : j = id := by simpa using hm2
      exact ⟨szj, by rw [hj]⟩
  have hek_i : (pub_keys.map
      (fun k => (AsymKey.keyId k).getD 0 :: sealSymKey c r)).getD i [] =
      id :: sealSymKey c r := by
    have hi2 : i < (pub_keys.map
        (fun k => (AsymKey.keyId k).getD 0 :: sealSymKey c r)).length := by
      simpa using hi
    rw [List.getD_eq_getElem _ _ hi2, List.getElem_map,
        ← List.getD_eq_getElem pub_keys (AsymKey.badKey 0) hi, hpk_eq]
    rfl
  have hopeninit : EVP_OpenInit c (id :: sealSymKey c r)
      (AsymKey.privKey id sz2) = some (sealSymKey c r) := by
    simp [EVP_OpenInit, unwrapKey, hklen]
  have hraw := symDecryptRaw_symEncrypt c (sealSymKey c r) (sealIV c r)
    plaintext hpt hb2
  have hun : pkcs7unpad c.block_size (symDecryptRaw (sealSymKey c r)
      (sealIV c r) (symEncrypt c (sealSymKey c r) (sealIV c r) plaintext)) =
      some plaintext := by
    rw [hraw]
    exact pkcs7unpad_pkcs7pad _ _ hb1
  have hctlen : (symEncrypt c (sealSymKey c r) (sealIV c r) plaintext).length =
      plaintext.length + padLen c.block_size plaintext.length :=
    length_symEncrypt c _ _ _
  have hle : plaintext.length ≤ (vecResize p0
      ((symEncrypt c (sealSymKey c r) (sealIV c r) plaintext).length +
        EVP_CIPHER_block_size c)).length := by
    rw [length_vecResize, hctlen]
    show plaintext.length ≤ plaintext.length + padLen c.block_size plaintext.length
      + c.block_size
    omega
  have hcore : Envelope.OpenCore c (AsymKey.privKey id sz2)
      (symEncrypt c (sealSymKey c r) (sealIV c r) plaintext)
      (id :: sealSymKey c r) (sealIV c r)
      (vecResize p0 ((symEncrypt c (sealSymKey c r) (sealIV c r) plaintext).length +
        EVP_CIPHER_block_size c)) =
      (Except.ok plaintext.length,
       plaintext ++ (vecResize p0
          ((symEncrypt c (sealSymKey c r) (sealIV c r) plaintext).length +
            EVP_CIPHER_block_size c)).drop plaintext.length) := by
    rw [openCore_eq c _ _ _ _ _ _ _ (sealIV_length c r) hopeninit hun,
        if_pos hle]
  dsimp only
  rw [hpriv_eq, hek_i]
  unfold Envelope.OpenAlloc
  simp only [hc, hcore]
  rw [vecResize_append_left]

/-- Concrete instantiation of C1: AES-128-CBC, two recipients, a two-byte
plaintext, the second recipient opens. -/
theorem C1_seal_open_roundtrip_witness :
    (EVP_get_cipherbyname "aes-128-cbc" = some ⟨"aes-128-cbc", 16, 16, 16⟩) ∧
    ([AsymKey.pubKey 5 40, AsymKey.pubKey 7 33] ≠ ([] : List AsymKey)) ∧
    (∀ k ∈ [AsymKey.pubKey 5 40, AsymKey.pubKey 7 33], goodPubKey 16 k = true) ∧
    ValidBytes [104, 105] ∧ (1 < 2) ∧
    (privMatches (AsymKey.privKey 7 9)
      ([AsymKey.pubKey 5 40, AsymKey.pubKey 7 33].getD 1 (AsymKey.badKey 0)) = true) ∧
    ((Envelope.Seal "aes-128-cbc" [AsymKey.pubKey 5 40, AsymKey.pubKey 7 33]
        [104, 105] ⟨[], [], []⟩ rng0).1.1 = Except.ok () ∧
      Envelope.OpenAlloc "aes-128-cbc" (AsymKey.privKey 7 9)
        ((Envelope.Seal "aes-128-cbc" [AsymKey.pubKey 5 40, AsymKey.pubKey 7 33]
            [104, 105] ⟨[], [], []⟩ rng0).1.2).ciphertext
        (((Envelope.Seal "aes-128-cbc" [AsymKey.pubKey 5 40, AsymKey.pubKey 7 33]
            [104, 105] ⟨[], [], []⟩ rng0).1.2).encrypted_keys.getD 1 [])
        ((Envelope.Seal "aes-128-cbc" [AsymKey.pubKey 5 40, AsymKey.pubKey 7 33]
            [104, 105] ⟨[], [], []⟩ rng0).1.2).iv [] rng0
        = ((Except.ok (), [104, 105]), rng0)) :=
  ⟨by decide, by decide, by decide, by decide, by decide, by decide,
   C1_seal_open_roundtrip "aes-128-cbc" ⟨"aes-128-cbc", 16, 16, 16⟩
     [AsymKey.pubKey 5 40, AsymKey.pubKey 7 33] [104, 105] ⟨[], [], []⟩ rng0
     1 (AsymKey.privKey 7 9) [] rng0
     (by decide) (by decide) (by decide) (by decide) (by decide) (by decide)⟩

/-- Claim C2: every successful `Seal` returns exactly one encrypted key per
public key, and the key at position `i` is the symmetric key wrapped under
`pub_keys[i]` (same ordinal position). -/
theorem C2_fanout_consistency
    (cipher_name : String) (c : EVPCipher) (pub_keys : List AsymKey)
    (plaintext : Bytes) (out0 : SealOut) (r : Rng)
    (hc : EVP_get_cipherbyname cipher_name = some c)
    (hok : (Envelope.Seal cipher_name pub_keys plaintext out0 r).1.1 = Except.ok ()) :
    ((Envelope.Seal cipher_name pub_keys plaintext out0 r).1.2).encrypted_keys.length
        = pub_keys.length ∧
    ∀ i, i < pub_keys.length →
      wrapKey (pub_keys.getD i (AsymKey.badKey 0)) (sealSymKey c r) =
        some (((Envelope.Seal cipher_name pub_keys plaintext
          out0 r).1.2).encrypted_keys.getD i []) := by
  obtain ⟨hne, c2, hc2, wrapped, hw⟩ :=
    seal_ok_inv cipher_name pub_keys plaintext out0 r hok
  have hcc : c2 = c := by
    have h2 := hc2.symm.trans hc
    injection h2
  subst hcc
  rw [seal_eq cipher_name c2 pub_keys plaintext out0 r wrapped hc2 hne hw]
  dsimp only
  exact ⟨wrapAll_length _ _ _ hw, fun i hi => wrapAll_getD _ _ _ hw i hi _⟩

/-- Concrete instantiation of C2: a successful two-recipient seal. -/
theorem C2_fanout_consistency_witness :
    (EVP_get_cipherbyname "aes-128-cbc" = some ⟨"aes-128-cbc", 16, 16, 16⟩) ∧
    ((Envelope.Seal "aes-128-cbc" [AsymKey.pubKey 5 40, AsymKey.pubKey 7 33]
        [104, 105] ⟨[], [], []⟩ rng0).1.1 = Except.ok ()) ∧
    (((Envelope.Seal "aes-128-cbc" [AsymKey.pubKey 5 40, AsymKey.pubKey 7 33]
        [104, 105] ⟨[], [], []⟩ rng0).1.2).encrypted_keys.length = 2 ∧
      ∀ i, i < 2 →
        wrapKey ([AsymKey.pubKey 5 40, AsymKey.pubKey 7 33].getD i (AsymKey.badKey 0))
            (sealSymKey ⟨"aes-128-cbc", 16, 16, 16⟩ rng0) =
          some (((Envelope.Seal "aes-128-cbc"
            [AsymKey.pubKey 5 40, AsymKey.pubKey 7 33]
            [104, 105] ⟨[], [], []⟩ rng0).1.2).encrypted_keys.getD i [])) :=
  ⟨by decide, by decide,
   C2_fanout_consistency "aes-128-cbc" ⟨"aes-128-cbc", 16, 16, 16⟩
     [AsymKey.pubKey 5 40, AsymKey.pubKey 7 33] [104, 105] ⟨[], [], []⟩ rng0
     (by decide) (by decide)⟩

/-- Claim C3: opening with a private key that does not match the public key
that produced the supplied encrypted key fails with the spec's
`CryptoOperationFailed` (the argument-less `LogAndThrowOpenSSLError`),
leaving the output buffer untouched — it never returns successfully. -/
theorem C3_wrong_key_rejected
    (cipher_name : String) (c : EVPCipher) (symKey blob : Bytes)
    (j szj m szm : Nat) (ct iv buf : Bytes) (r : Rng)
    (hc : EVP_get_cipherbyname cipher_name = some c)
    (hw : wrapKey (AsymKey.pubKey j szj) symKey = some blob)
    (hne : m ≠ j)
    (hiv : iv.length = c.iv_length) :
    Envelope.OpenSized cipher_name (AsymKey.privKey m szm) ct blob iv buf r
        = ((Except.error (EnvError.openSSLError ""), buf), r) ∧
    (EnvError.openSSLError "").isCryptoOperationFailed := by
  have hblob : blob = j :: symKey := by
    have hw2 : (if symKey.length + 1 ≤ szj then some (j :: symKey) else none)
        = some blob := hw
    split at hw2
    · injection hw2 with hw2
      exact hw2.symm
    · exact absurd hw2 (by simp)
  have hj : ¬ (j = m) := fun h => hne h.symm
  have hinit : EVP_OpenInit c blob (AsymKey.privKey m szm) = none := by
    rw [hblob]
    simp [EVP_OpenInit, unwrapKey, hj]
  refine ⟨?_, rfl⟩
  unfold Envelope.OpenSized
  simp only [hc]
  unfold Envelope.OpenCore
  simp only [EVP_CIPHER_iv_length]
  rw [if_neg (not_not_intro hiv)]
  simp only [hinit]

/-- Concrete instantiation of C3: key pair 2 tries to open a slot wrapped
for key pair 1. -/
theorem C3_wrong_key_rejected_witness :
    (EVP_get_cipherbyname "aes-128-cbc" = some ⟨"aes-128-cbc", 16, 16, 16⟩) ∧
    (wrapKey (AsymKey.pubKey 1 17) (List.replicate 16 0) =
      some (1 :: List.replicate 16 0)) ∧
    ((2 : Nat) ≠ 1) ∧
    ((List.replicate 16 0 : Bytes).length = 16) ∧
    (Envelope.OpenSized "aes-128-cbc" (AsymKey.privKey 2 17) []
        (1 :: List.replicate 16 0) (List.replicate 16 0) [] rng0
        = ((Except.error (EnvError.openSSLError ""), []), rng0) ∧
      (EnvError.openSSLError "").isCryptoOperationFailed) :=
  ⟨by decide, by decide, by decide, by decide,
   C3_wrong_key_rejected "aes-128-cbc" ⟨"aes-128-cbc", 16, 16, 16⟩
     (List.replicate 16 0) (1 :: List.replicate 16 0) 1 17 2 17 []
     (List.replicate 16 0) [] rng0
     (by decide) (by decide) (by decide) (by decide)⟩

/-- Claim C4 (amended): when the supplied IV's length differs from the
resolved cipher's IV length, `Open` aborts through the C `assert` at the
top of the core overload, before any decryption step (the buffer is
untouched); no typed `InvalidIVLength` error is raised. -/
theorem C4_iv_length_assert
    (cipher_name : String) (c : EVPCipher) (priv : AsymKey)
    (ct ek iv buf : Bytes) (r : Rng)
    (hc : EVP_get_cipherbyname cipher_name = some c)
    (hiv : iv.length ≠ c.iv_length) :
    Envelope.OpenSized cipher_name priv ct ek iv buf r
      = ((Except.error EnvError.assertFailed, buf), r) := by
  unfold Envelope.OpenSized
  simp only [hc]
  unfold Envelope.OpenCore
  simp only [EVP_CIPHER_iv_length]
  rw [if_pos hiv]

/-- Counterexample to C4 as stated: a 15-byte IV for AES-128-CBC makes
`Open` fail through the assertion, not with `InvalidIVLength`. -/
theorem C4_counterexample :
    (Envelope.OpenSized "aes-128-cbc" (AsymKey.privKey 0 1) [] []
        (List.replicate 15 0) [] rng0).1.1 = Except.error EnvError.assertFailed ∧
    (Envelope.OpenSized "aes-128-cbc" (AsymKey.privKey 0 1) [] []
        (List.replicate 15 0) [] rng0).1.1 ≠
      Except.error EnvError.invalidIVLength := by
  decide

/-- Concrete instantiation of the amended C4. -/
theorem C4_iv_length_assert_witness :
    (EVP_get_cipherbyname "aes-128-cbc" = some ⟨"aes-128-cbc", 16, 16, 16⟩) ∧
    ((List.replicate 15 0 : Bytes).length ≠ 16) ∧
    (Envelope.OpenSized "aes-128-cbc" (AsymKey.privKey 0 1) [] []
        (List.replicate 15 0) [] rng0
      = ((Except.error EnvError.assertFailed, []), rng0)) :=
  ⟨by decide, by decide,
   C4_iv_length_assert "aes-128-cbc" ⟨"aes-128-cbc", 16, 16, 16⟩
     (AsymKey.privKey 0 1) [] [] (List.replicate 15 0) [] rng0
     (by decide) (by decide)⟩

/-- Claim C5 (amended): when key wrapping inside `EVP_SealInit` fails,
`Seal` aborts by throwing (the spec's `CryptoOperationFailed`) and returns
no result value; but the caller-supplied output vectors have already been
resized — `encrypted_keys` to one `EVP_PKEY_size`-sized zero-filled buffer
per recipient, `iv` to the cipher's IV length, `ciphertext` to plaintext
length + block size — so they do hold intermediate data. -/
theorem C5_failure_leaves_resized_buffers
    (cipher_name : String) (c : EVPCipher) (pub_keys : List AsymKey)
    (plaintext : Bytes) (out0 : SealOut) (r : Rng)
    (hc : EVP_get_cipherbyname cipher_name = some c)
    (hne : pub_keys ≠ [])
    (hwf : wrapAll pub_keys (sealSymKey c r) = none) :
    (Envelope.Seal cipher_name pub_keys plaintext out0 r).1.1
        = Except.error (EnvError.openSSLError "") ∧
    ((Envelope.Seal cipher_name pub_keys plaintext
        out0 r).1.2).encrypted_keys.length = pub_keys.length ∧
    ((Envelope.Seal cipher_name pub_keys plaintext out0 r).1.2).iv.length
        = c.iv_length ∧
    ((Envelope.Seal cipher_name pub_keys plaintext out0 r).1.2).ciphertext.length
        = plaintext.length + c.block_size := by
  rw [seal_fail_eq cipher_name c pub_keys plaintext out0 r hc hne hwf]
  dsimp only
  refine ⟨rfl, ?_, ?_, ?_⟩
  · rw [List.length_map, List.length_zip, length_vecResizeL]
    omega
  · exact length_vecResize _ _
  · exact length_vecResize _ _

/-- Counterexample to C5 as stated: a malformed recipient key makes
`EVP_SealInit` fail, yet the output vectors — initially empty — end the
call resized and zero-filled (data that looks like plausible output). -/
theorem C5_counterexample :
    (Envelope.Seal "aes-128-cbc" [AsymKey.badKey 17] [] ⟨[], [], []⟩ rng0).1.1
        = Except.error (EnvError.openSSLError "") ∧
    (Envelope.Seal "aes-128-cbc" [AsymKey.badKey 17] []
        ⟨[], [], []⟩ rng0).1.2.encrypted_keys = [List.replicate 17 0] ∧
    (Envelope.Seal "aes-128-cbc" [AsymKey.badKey 17] []
        ⟨[], [], []⟩ rng0).1.2 ≠ (⟨[], [], []⟩ : SealOut) := by
  decide

/-- Concrete instantiation of the amended C5. -/
theorem C5_failure_leaves_resized_buffers_witness :
    (EVP_get_cipherbyname "aes-128-cbc" = some ⟨"aes-128-cbc", 16, 16, 16⟩) ∧
    ([AsymKey.badKey 17] ≠ ([] : List AsymKey)) ∧
    (wrapAll [AsymKey.badKey 17]
      (sealSymKey ⟨"aes-128-cbc", 16, 16, 16⟩ rng0) = none) ∧
    ((Envelope.Seal "aes-128-cbc" [AsymKey.badKey 17] [] ⟨[], [], []⟩ rng0).1.1
        = Except.error (EnvError.openSSLError "") ∧
      ((Envelope.Seal "aes-128-cbc" [AsymKey.badKey 17] []
          ⟨[], [], []⟩ rng0).1.2).encrypted_keys.length = 1 ∧
      ((Envelope.Seal "aes-128-cbc" [AsymKey.badKey 17] []
          ⟨[], [], []⟩ rng0).1.2).iv.length = 16 ∧
      ((Envelope.Seal "aes-128-cbc" [AsymKey.badKey 17] []
          ⟨[], [], []⟩ rng0).1.2).ciphertext.length = 0 + 16) :=
  ⟨by decide, by decide, by decide,
   C5_failure_leaves_resized_buffers "aes-128-cbc" ⟨"aes-128-cbc", 16, 16, 16⟩
     [AsymKey.badKey 17] [] ⟨[], [], []⟩ rng0
     (by decide) (by decide) (by decide)⟩

/-- Claim C6: for a cipher name that does not resolve, `Seal` and both
`Open` forms fail with the unknown-cipher error (the only sites passing a
message to `LogAndThrowOpenSSLError`), with no side effects: the output
buffers are returned exactly as supplied and the randomness state is
untouched (no keys generated). -/
theorem C6_unknown_cipher
    (cipher_name : String) (pub_keys : List AsymKey) (plaintext : Bytes)
    (out0 : SealOut) (r : Rng) (priv : AsymKey) (ct ek iv buf p0 : Bytes)
    (hres : EVP_get_cipherbyname cipher_name = none)
    (hne : pub_keys ≠ []) :
    (Envelope.Seal cipher_name pub_keys plaintext out0 r
        = ((Except.error (EnvError.openSSLError
            ("Envelope::Seal: Unknown cipher " ++ cipher_name)), out0), r) ∧
      (EnvError.openSSLError
        ("Envelope::Seal: Unknown cipher " ++ cipher_name)).isUnknownCipherError) ∧
    (Envelope.OpenSized cipher_name priv ct ek iv buf r
        = ((Except.error (EnvError.openSSLError
            ("Envelope::Open: Unknown cipher " ++ cipher_name)), buf), r) ∧
      (EnvError.openSSLError
        ("Envelope::Open: Unknown cipher " ++ cipher_name)).isUnknownCipherError) ∧
    (Envelope.OpenAlloc cipher_name priv ct ek iv p0 r
        = ((Except.error (EnvError.openSSLError
            ("Envelope: Unknown cipher " ++ cipher_name)), p0), r) ∧
      (EnvError.openSSLError
        ("Envelope: Unknown cipher " ++ cipher_name)).isUnknownCipherError) := by
  have hlen0 : ¬ pub_keys.length = 0 := by
    intro h
    exact hne (List.eq_nil_of_length_eq_zero h)
  have hmsg : ∀ s : String, s.length ≠ 0 → (s ++ cipher_name) ≠ "" := by
    intro s hs h
    have h2 := congrArg String.length h
    rw [String.length_append] at h2
    simp at h2
    exact hs h2.1
  refine ⟨⟨?_, hmsg _ (by decide)⟩, ⟨?_, hmsg _ (by decide)⟩,
    ⟨?_, hmsg _ (by decide)⟩⟩
  · unfold Envelope.Seal
    rw [if_neg hlen0]
    simp only [hres]
  · unfold Envelope.OpenSized
    simp only [hres]
  · unfold Envelope.OpenAlloc
    simp only [hres]

/-- Concrete instantiation of C6: the unrecognised name "rc4-fake". -/
theorem C6_unknown_cipher_witness :
    (EVP_get_cipherbyname "rc4-fake" = none) ∧
    ([AsymKey.pubKey 1 40] ≠ ([] : List AsymKey)) ∧
    ((Envelope.Seal "rc4-fake" [AsymKey.pubKey 1 40] [1] ⟨[], [], []⟩ rng0
        = ((Except.error (EnvError.openSSLError
            ("Envelope::Seal: Unknown cipher " ++ "rc4-fake")), ⟨[], [], []⟩), rng0) ∧
      (EnvError.openSSLError
        ("Envelope::Seal: Unknown cipher " ++ "rc4-fake")).isUnknownCipherError) ∧
    (Envelope.OpenSized "rc4-fake" (AsymKey.privKey 1 40) [2] [3] [4] [5] rng0
        = ((Except.error (EnvError.openSSLError
            ("Envelope::Open: Unknown cipher " ++ "rc4-fake")), [5]), rng0) ∧
      (EnvError.openSSLError
        ("Envelope::Open: Unknown cipher " ++ "rc4-fake")).isUnknownCipherError) ∧
    (Envelope.OpenAlloc "rc4-fake" (AsymKey.privKey 1 40) [2] [3] [4] [6] rng0
        = ((Except.error (EnvError.openSSLError
            ("Envelope: Unknown cipher " ++ "rc4-fake")), [6]), rng0) ∧
      (EnvError.openSSLError
        ("Envelope: Unknown cipher " ++ "rc4-fake")).isUnknownCipherError)) :=
  ⟨by decide, by decide,
   C6_unknown_cipher "rc4-fake" [AsymKey.pubKey 1 40] [1] ⟨[], [], []⟩ rng0
     (AsymKey.privKey 1 40) [2] [3] [4] [5] [6]
     (by decide) (by decide)⟩

/-- Claim C7: every successful `Seal` under a resolved (padding block)
cipher returns a ciphertext whose length is between the plaintext length
and the plaintext length plus one block. -/
theorem C7_ciphertext_size_bound
    (cipher_name : String) (c : EVPCipher) (pub_keys : List AsymKey)
    (plaintext : Bytes) (out0 : SealOut) (r : Rng)
    (hc : EVP_get_cipherbyname cipher_name = some c)
    (hok : (Envelope.Seal cipher_name pub_keys plaintext out0 r).1.1 = Except.ok ()) :
    plaintext.length ≤
      ((Envelope.Seal cipher_name pub_keys plaintext out0 r).1.2).ciphertext.length ∧
    ((Envelope.Seal cipher_name pub_keys plaintext out0 r).1.2).ciphertext.length ≤
      plaintext.length + c.block_size := by
  obtain ⟨hne, c2, hc2, wrapped, hw⟩ :=
    seal_ok_inv cipher_name pub_keys plaintext out0 r hok
  have hcc : c2 = c := by
    have h2 := hc2.symm.trans hc
    injection h2
  subst hcc
  rw [seal_eq cipher_name c2 pub_keys plaintext out0 r wrapped hc2 hne hw]
  dsimp only
  rw [length_symEncrypt]
  have hpl : padLen c2.block_size plaintext.length ≤ c2.block_size := Nat.sub_le _ _
  omega

/-- Concrete instantiation of C7: two-byte plaintext, 16-byte block. -/
theorem C7_ciphertext_size_bound_witness :
    (EVP_get_cipherbyname "aes-128-cbc" = some ⟨"aes-128-cbc", 16, 16, 16⟩) ∧
    ((Envelope.Seal "aes-128-cbc" [AsymKey.pubKey 5 40] [104, 105]
        ⟨[], [], []⟩ rng0).1.1 = Except.ok ()) ∧
    ((2 : Nat) ≤ ((Envelope.Seal "aes-128-cbc" [AsymKey.pubKey 5 40] [104, 105]
        ⟨[], [], []⟩ rng0).1.2).ciphertext.length ∧
      ((Envelope.Seal "aes-128-cbc" [AsymKey.pubKey 5 40] [104, 105]
        ⟨[], [], []⟩ rng0).1.2).ciphertext.length ≤ 2 + 16) :=
  ⟨by decide, by decide,
   C7_ciphertext_size_bound "aes-128-cbc" ⟨"aes-128-cbc", 16, 16, 16⟩
     [AsymKey.pubKey 5 40] [104, 105] ⟨[], [], []⟩ rng0
     (by decide) (by decide)⟩

/-- Claim C8: the allocating `Open` delegates to the sized-buffer core over
a buffer of capacity `ciphertext.length + block_size`: on success it
returns the same plaintext bytes (the first `n` bytes the core wrote),
truncated to exactly the reported length `n`; on failure it propagates the
same error and buffer state. -/
theorem C8_alloc_delegates_to_sized
    (cipher_name : String) (c : EVPCipher) (priv : AsymKey)
    (ct ek iv p0 : Bytes) (r : Rng)
    (hc : EVP_get_cipherbyname cipher_name = some c) :
    (∀ n b2, Envelope.OpenSized cipher_name priv ct ek iv
        (vecResize p0 (ct.length + c.block_size)) r = ((Except.ok n, b2), r) →
      Envelope.OpenAlloc cipher_name priv ct ek iv p0 r
          = ((Except.ok (), b2.take n), r) ∧ (b2.take n).length = n) ∧
    (∀ e b3, Envelope.OpenSized cipher_name priv ct ek iv
        (vecResize p0 (ct.length + c.block_size)) r = ((Except.error e, b3), r) →
      Envelope.OpenAlloc cipher_name priv ct ek iv p0 r
          = ((Except.error e, b3), r)) := by
  constructor
  · intro n b2 h
    have hcore : Envelope.OpenCore c priv ct ek iv
        (vecResize p0 (ct.length + c.block_size)) = (Except.ok n, b2) := by
      unfold Envelope.OpenSized at h
      simp only [hc, Prod.mk.injEq] at h
      exact h.1
    obtain ⟨hiv, key, pt, hinit, hun, hn, hlen⟩ :=
      openCore_ok_inv c priv ct ek iv _ n b2 hcore
    have hcore2 := openCore_eq c priv ct ek iv
      (vecResize p0 (ct.length + c.block_size)) key pt hiv hinit hun
    rw [hcore] at hcore2
    rw [if_pos hlen] at hcore2
    simp only [Prod.mk.injEq] at hcore2
    have hb2len : b2.length = (vecResize p0 (ct.length + c.block_size)).length := by
      rw [hcore2.2, List.length_append, List.length_drop]
      omega
    have hnle : n ≤ b2.length := by
      rw [hb2len, hn]
      exact hlen
    constructor
    · unfold Envelope.OpenAlloc
      simp only [hc, EVP_CIPHER_block_size, hcore]
      rw [vecResize_eq_take _ _ hnle]
    · rw [List.length_take]
      omega
  · intro e b3 h
    have hcore : Envelope.OpenCore c priv ct ek iv
        (vecResize p0 (ct.length + c.block_size)) = (Except.error e, b3) := by
      unfold Envelope.OpenSized at h
      simp only [hc, Prod.mk.injEq] at h
      exact h.1
    unfold Envelope.OpenAlloc
    simp only [hc, EVP_CIPHER_block_size, hcore]

/-- Concrete instantiation of C8: both the success delegation (a sealed
one-byte plaintext) and the failure delegation (an unopenable slot). -/
theorem C8_alloc_delegates_to_sized_witness :
    (EVP_get_cipherbyname "aes-128-cbc" = some ⟨"aes-128-cbc", 16, 16, 16⟩) ∧
    ((∀ n b2, Envelope.OpenSized "aes-128-cbc" (AsymKey.privKey 3 17)
        (symEncrypt ⟨"aes-128-cbc", 16, 16, 16⟩ (List.replicate 16 0)
          (List.replicate 16 1) [42])
        (3 :: List.replicate 16 0) (List.replicate 16 1)
        (vecResize [] ((symEncrypt ⟨"aes-128-cbc", 16, 16, 16⟩ (List.replicate 16 0)
          (List.replicate 16 1) [42]).length + 16)) rng0 = ((Except.ok n, b2), rng0) →
      Envelope.OpenAlloc "aes-128-cbc" (AsymKey.privKey 3 17)
        (symEncrypt ⟨"aes-128-cbc", 16, 16, 16⟩ (List.replicate 16 0)
          (List.replicate 16 1) [42])
        (3 :: List.replicate 16 0) (List.replicate 16 1) [] rng0
          = ((Except.ok (), b2.take n), rng0) ∧ (b2.take n).length = n) ∧
    (∀ e b3, Envelope.OpenSized "aes-128-cbc" (AsymKey.privKey 3 17)
        (symEncrypt ⟨"aes-128-cbc", 16, 16, 16⟩ (List.replicate 16 0)
          (List.replicate 16 1) [42])
        (3 :: List.replicate 16 0) (List.replicate 16 1)
        (vecResize [] ((symEncrypt ⟨"aes-128-cbc", 16, 16, 16⟩ (List.replicate 16 0)
          (List.replicate 16 1) [42]).length + 16)) rng0 = ((Except.error e, b3), rng0) →
      Envelope.OpenAlloc "aes-128-cbc" (AsymKey.privKey 3 17)
        (symEncrypt ⟨"aes-128-cbc", 16, 16, 16⟩ (List.replicate 16 0)
          (List.replicate 16 1) [42])
        (3 :: List.replicate 16 0) (List.replicate 16 1) [] rng0
          = ((Except.error e, b3), rng0))) :=
  ⟨by decide,
   C8_alloc_delegates_to_sized "aes-128-cbc" ⟨"aes-128-cbc", 16, 16, 16⟩
     (AsymKey.privKey 3 17)
     (symEncrypt ⟨"aes-128-cbc", 16, 16, 16⟩ (List.replicate 16 0)
       (List.replicate 16 1) [42])
     (3 :: List.replicate 16 0) (List.replicate 16 1) [] rng0
     (by decide)⟩

/-- Claim C9: both public `Open` forms are deterministic: their outcome is
a function of the five inputs alone, independent of the threaded ambient
randomness state, and they return that state untouched (only `Seal`
consumes randomness). -/
theorem C9_open_deterministic
    (cipher_name : String) (priv : AsymKey) (ct ek iv buf p0 : Bytes) :
    ∀ r1 r2 : Rng,
    (Envelope.OpenSized cipher_name priv ct ek iv buf r1).1
        = (Envelope.OpenSized cipher_name priv ct ek iv buf r2).1 ∧
    (Envelope.OpenSized cipher_name priv ct ek iv buf r1).2 = r1 ∧
    (Envelope.OpenAlloc cipher_name priv ct ek iv p0 r1).1
        = (Envelope.OpenAlloc cipher_name priv ct ek iv p0 r2).1 ∧
    (Envelope.OpenAlloc cipher_name priv ct ek iv p0 r1).2 = r1 := by
  intro r1 r2
  exact ⟨rfl, rfl, rfl, rfl⟩

/-- Claim C10: the sized-buffer `Open` never checks the output buffer's
capacity before writing: the bytes it writes (the decrypted plaintext
prefix) are the same for every buffer, including too-small ones, and the
only capacity-dependent behaviour is the final assertion; under the
documented precondition `capacity ≥ ciphertext.length + block_size` the
plaintext fits and the buffer does not grow (every write in bounds). -/
theorem C10_no_capacity_check_before_write
    (cipher_name : String) (c : EVPCipher) (priv : AsymKey)
    (ct ek iv key pt : Bytes)
    (hc : EVP_get_cipherbyname cipher_name = some c)
    (hiv : iv.length = c.iv_length)
    (hinit : EVP_OpenInit c ek priv = some key)
    (hun : pkcs7unpad c.block_size (symDecryptRaw key iv ct) = some pt) :
    ∀ buf : Bytes, ∀ r : Rng,
    ((Envelope.OpenSized cipher_name priv ct ek iv buf r).1.2).take pt.length
        = pt ∧
    (Envelope.OpenSized cipher_name priv ct ek iv buf r).1.1 =
      (if pt.length ≤ buf.length then Except.ok pt.length
       else Except.error EnvError.assertFailed) ∧
    (ct.length + c.block_size ≤ buf.length →
      pt.length ≤ buf.length ∧
      ((Envelope.OpenSized cipher_name priv ct ek iv buf r).1.2).length
        = buf.length) := by
  intro buf r
  have hcore := openCore_eq c priv ct ek iv buf key pt hiv hinit hun
  have hsz : Envelope.OpenSized cipher_name priv ct ek iv buf r
      = ((if pt.length ≤ buf.length then Except.ok pt.length
          else Except.error EnvError.assertFailed, pt ++ buf.drop pt.length), r) := by
    unfold Envelope.OpenSized
    simp only [hc, hcore]
  rw [hsz]
  dsimp only
  obtain ⟨hpt_take, hlb, hub, hpos, hmod, hbpos⟩ := pkcs7unpad_facts _ _ _ hun
  have hraw_len : (symDecryptRaw key iv ct).length = ct.length := by
    simp [symDecryptRaw]
  rw [hraw_len] at hlb
  refine ⟨List.take_left pt (buf.drop pt.length), rfl, ?_⟩
  intro hcap
  have hple : pt.length ≤ buf.length := by omega
  refine ⟨hple, ?_⟩
  rw [List.length_append, List.length_drop]
  omega

/-- Concrete instantiation of C10 at a zero-capacity buffer: the one-byte
plaintext is still written (no early capacity error), the call ends in the
assertion, and with an adequate buffer everything stays in bounds. -/
theorem C10_no_capacity_check_before_write_witness :
    (EVP_get_cipherbyname "aes-128-cbc" = some ⟨"aes-128-cbc", 16, 16, 16⟩) ∧
    ((List.replicate 16 1 : Bytes).length = 16) ∧
    (EVP_OpenInit ⟨"aes-128-cbc", 16, 16, 16⟩ (3 :: List.replicate 16 0)
      (AsymKey.privKey 3 17) = some (List.replicate 16 0)) ∧
    (pkcs7unpad 16 (symDecryptRaw (List.replicate 16 0) (List.replicate 16 1)
      (symEncrypt ⟨"aes-128-cbc", 16, 16, 16⟩ (List.replicate 16 0)
        (List.replicate 16 1) [42])) = some [42]) ∧
    (((Envelope.OpenSized "aes-128-cbc" (AsymKey.privKey 3 17)
        (symEncrypt ⟨"aes-128-cbc", 16, 16, 16⟩ (List.replicate 16 0)
          (List.replicate 16 1) [42])
        (3 :: List.replicate 16 0) (List.replicate 16 1) [] rng0).1.2).take
          ([42] : Bytes).length = [42] ∧
      (Envelope.OpenSized "aes-128-cbc" (AsymKey.privKey 3 17)
        (symEncrypt ⟨"aes-128-cbc", 16, 16, 16⟩ (List.replicate 16 0)
          (List.replicate 16 1) [42])
        (3 :: List.replicate 16 0) (List.replicate 16 1) [] rng0).1.1 =
        (if ([42] : Bytes).length ≤ ([] : Bytes).length then Except.ok ([42] : Bytes).length
         else Except.error EnvError.assertFailed) ∧
      ((symEncrypt ⟨"aes-128-cbc", 16, 16, 16⟩ (List.replicate 16 0)
          (List.replicate 16 1) [42]).length + 16 ≤ ([] : Bytes).length →
        ([42] : Bytes).length ≤ ([] : Bytes).length ∧
        ((Envelope.OpenSized "aes-128-cbc" (AsymKey.privKey 3 17)
          (symEncrypt ⟨"aes-128-cbc", 16, 16, 16⟩ (List.replicate 16 0)
            (List.replicate 16 1) [42])
          (3 :: List.replicate 16 0) (List.replicate 16 1) [] rng0).1.2).length
            = ([] : Bytes).length)) :=
  ⟨by decide, by decide, by decide, by decide,
   C10_no_capacity_check_before_write "aes-128-cbc" ⟨"aes-128-cbc", 16, 16, 16⟩
     (AsymKey.privKey 3 17)
     (symEncrypt ⟨"aes-128-cbc", 16, 16, 16⟩ (List.replicate 16 0)
       (List.replicate 16 1) [42])
     (3 :: List.replicate 16 0) (List.replicate 16 1) (List.replicate 16 0) [42]
     (by decide) (by decide) (by decide) (by decide) [] rng0⟩

end xtreemfs
